import Mathlib

/-!
Shallow embedding of src/key_sentinel.rs (crate sentinel): the quorum-based
trust accumulator KeySentinel, with its cache of per-request state, the
two-stage threshold logic and the selection/verification algorithm.

BTreeSet and BTreeMap values are embedded as sorted duplicate-free lists,
matching their ascending iteration order.  The Key-Corroboration Store
(module key_store, not part of the sources given) and the LRU cache
(crate lru_time_cache) are modelled from the specification, as documented
on their definitions.
-/

namespace Sentinel

/-- The constant MAX_REQUEST_COUNT from key_sentinel.rs: capacity of the
pending-request cache. -/
def MAX_REQUEST_COUNT : Nat := 1000

/-- Modelled from the spec: the Key-Corroboration Store (module key_store,
consumed via use key_store::KeyStore but not among the given sources).
Spec section 6: created empty with a corroboration threshold; add-key records
that a voucher name vouches a claimed name owns a public key; it accumulates
facts of the shape (claimed name, voucher name, public key). -/
structure KeyStore (Name Key : Type) where
  threshold : Nat
  vouches : List (Name × Name × Key)
deriving DecidableEq

namespace KeyStore

variable {Name Key : Type} [DecidableEq Name] [DecidableEq Key]

/-- Modelled from the spec: new(threshold) creates an empty store requiring
threshold distinct vouchers before a key is exposed. -/
def new (threshold : Nat) : KeyStore Name Key :=
  ⟨threshold, []⟩

/-- Modelled from the spec: add-key(claimed-name, voucher-name, public-key)
records that voucher-name vouches claimed-name owns public-key.  Recording a
fact already present has no effect (vouch facts form a set). -/
def add_key (ks : KeyStore Name Key) (claimed voucher : Name) (key : Key) :
    KeyStore Name Key :=
  if (claimed, voucher, key) ∈ ks.vouches then ks
  else { ks with vouches := ks.vouches ++ [(claimed, voucher, key)] }

/-- The distinct voucher names that vouch that claimed owns key. -/
def vouchersFor (ks : KeyStore Name Key) (claimed : Name) (key : Key) :
    List Name :=
  ((ks.vouches.filter
      (fun t => decide (t.1 = claimed) && decide (t.2.2 = key))).map
    (fun t => t.2.1)).dedup

/-- Modelled from the spec: get-accumulated-keys(claimed-name) returns the
public keys for claimed-name vouched for by at least threshold distinct
vouchers. -/
def get_accumulated_keys (ks : KeyStore Name Key) (claimed : Name) :
    List Key :=
  (((ks.vouches.filter (fun t => decide (t.1 = claimed))).map
      (fun t => t.2.2)).dedup).filter
    (fun k => decide (ks.threshold ≤ (ks.vouchersFor claimed k).length))

end KeyStore

/-- Insertion into a BTreeSet embedded as an ascending duplicate-free list:
insert keeping order, no effect when the element is already present. -/
def insertSorted {α : Type} [LinearOrder α] (a : α) : List α → List α
  | [] => [a]
  | b :: t =>
    if a < b then a :: b :: t
    else if a = b then b :: t
    else b :: insertSorted a t

/-- Collecting into a BTreeSet: fold the list into a sorted duplicate-free
list (models collect::<Set<_>>() in try_selecting_group). -/
def listToSet {α : Type} [LinearOrder α] (l : List α) : List α :=
  l.foldl (fun s a => insertSorted a s) []

/-- BTreeMap<Name, Set<GroupClaim>> embedded as an ascending-by-key
association list of sorted duplicate-free claim lists. -/
abbrev ClaimMap (Name GroupClaim : Type) : Type :=
  List (Name × List GroupClaim)

/-- The map update claims.entry(sender).or_insert_with(Set::new).insert(claim)
of add_identities: insert the claim into the set recorded for the sender,
creating the binding when absent, keeping keys in ascending order. -/
def mapSetInsert {Name GroupClaim : Type} [LinearOrder Name]
    [LinearOrder GroupClaim] (sender : Name) (claim : GroupClaim) :
    ClaimMap Name GroupClaim → ClaimMap Name GroupClaim
  | [] => [(sender, [claim])]
  | (n, cs) :: t =>
    if sender < n then (sender, [claim]) :: (n, cs) :: t
    else if sender = n then (n, insertSorted claim cs) :: t
    else (n, cs) :: mapSetInsert sender claim t

section Engine

variable {Request Name Key IdType GroupClaim : Type}
variable [DecidableEq Request] [LinearOrder Name] [DecidableEq Key]
variable [LinearOrder GroupClaim]
variable (idName : IdType → Name) (idKey : IdType → Key)
variable (groupIds : GroupClaim → List IdType)
variable (verifyPK : GroupClaim → Key → Bool)

/-- KeySentinel from key_sentinel.rs.  The LruCache is embedded as a
most-recently-touched-first association list together with its capacity
(the Rust value carries the capacity inside the LruCache; it is hoisted to
a field here). -/
structure KeySentinel (Request Name Key GroupClaim : Type) where
  capacity : Nat
  cache : List (Request × (KeyStore Name Key × ClaimMap Name GroupClaim))
  claim_threshold : Nat
  keys_threshold : Nat

/-- KeySentinel::new(claim_threshold, keys_threshold): empty cache with
capacity MAX_REQUEST_COUNT. -/
def KeySentinel.new (claim_threshold keys_threshold : Nat) :
    KeySentinel Request Name Key GroupClaim :=
  { capacity := MAX_REQUEST_COUNT
    cache := []
    claim_threshold := claim_threshold
    keys_threshold := keys_threshold }

/-- Lookup of a request in the embedded cache. -/
def cacheLookup (r : Request)
    (c : List (Request × (KeyStore Name Key × ClaimMap Name GroupClaim))) :
    Option (KeyStore Name Key × ClaimMap Name GroupClaim) :=
  (c.find? (fun p => decide (p.1 = r))).map Prod.snd

/-- Removal of a request from the embedded cache (LruCache::remove). -/
def cacheErase (r : Request)
    (c : List (Request × (KeyStore Name Key × ClaimMap Name GroupClaim))) :
    List (Request × (KeyStore Name Key × ClaimMap Name GroupClaim)) :=
  c.filter (fun p => !decide (p.1 = r))

/-- Modelled from the spec: the recency and eviction behaviour of the
LruCache (crate lru_time_cache, not among the given sources).  Spec
section 4.1: get-or-create touches recency order, and insertion beyond the
capacity evicts the least-recently-used entry, never the entry being
mutated.  The touched entry moves to the front and everything beyond
capacity entries, counted from the most recent, is discarded. -/
def cacheTouchInsert (capacity : Nat) (r : Request)
    (e : KeyStore Name Key × ClaimMap Name GroupClaim)
    (c : List (Request × (KeyStore Name Key × ClaimMap Name GroupClaim))) :
    List (Request × (KeyStore Name Key × ClaimMap Name GroupClaim)) :=
  ((r, e) :: cacheErase r c).take capacity

/-- The loop for id in claim.group_identities() of add_identities:
register sender vouches id.name() owns id.public_key() for every identity
referenced by the claim. -/
def updated_store (sender : Name) (claim : GroupClaim)
    (ks : KeyStore Name Key) : KeyStore Name Key :=
  (groupIds claim).foldl
    (fun ks i => ks.add_key (idName i) sender (idKey i)) ks

/-- The state of the entry for the request after the bookkeeping steps of
add_identities: the entry fetched from the cache (a fresh empty one when
absent), with the vouches of the claim registered and the claim inserted
into the set recorded for the sender. -/
def entry_after (s : KeySentinel Request Name Key GroupClaim) (request : Request)
    (sender : Name) (claim : GroupClaim) :
    KeyStore Name Key × ClaimMap Name GroupClaim :=
  (updated_store idName idKey groupIds sender claim
    ((cacheLookup request s.cache).getD (KeyStore.new s.keys_threshold, [])).1,
   mapSetInsert sender claim
    ((cacheLookup request s.cache).getD (KeyStore.new s.keys_threshold, [])).2)

/-- KeySentinel::verify_claim: a claim of the author verifies when some
accumulated key of the author name validates the claim signature. -/
def verify_claim (author : Name) (ks : KeyStore Name Key)
    (claim : GroupClaim) : Bool :=
  (ks.get_accumulated_keys author).any (fun k => verifyPK claim k)

/-- The verified-claim set of try_selecting_group: for each sender, the
first claim in iteration order that verifies, collected into a
deduplicating set. -/
def verified_claims (ks : KeyStore Name Key)
    (claims : ClaimMap Name GroupClaim) : List GroupClaim :=
  listToSet (claims.filterMap
    (fun p => p.2.find? (fun c => verify_claim verifyPK p.1 ks c)))

/-- KeySentinel::try_selecting_group: when the verified-claim set has size
at least claim_threshold, flatten the identities of the verified claims;
otherwise no result. -/
def try_selecting_group (key_store : KeyStore Name Key)
    (claims : ClaimMap Name GroupClaim) (claim_threshold : Nat) :
    Option (List IdType) :=
  let verified := verified_claims verifyPK key_store claims
  if verified.length < claim_threshold then none
  else some (verified.flatMap groupIds)

/-- KeySentinel::add_identities: get or create the entry for the request,
register the vouches of the claim, record the claim for the sender, attempt
selection; on success remove the entry from the cache and return the request
with the merged identity list, otherwise keep the entry cached. -/
def add_identities (s : KeySentinel Request Name Key GroupClaim)
    (request : Request) (sender : Name) (claim : GroupClaim) :
    KeySentinel Request Name Key GroupClaim × Option (Request × List IdType) :=
  let e := entry_after idName idKey groupIds s request sender claim
  match try_selecting_group groupIds verifyPK e.1 e.2 s.claim_threshold with
  | some ids =>
    ({ s with cache :=
        cacheErase request (cacheTouchInsert s.capacity request e s.cache) },
     some (request, ids))
  | none =>
    ({ s with cache := cacheTouchInsert s.capacity request e s.cache }, none)

end Engine

/-- Concrete instantiation shaped after the test types of key_sentinel.rs:
requests, names and public keys are naturals, an identity is a
(name, public key) pair, and a claim is identified by its serialised
content, a natural, from which its asserted identities and its
signature-validation predicate are derived. -/
def idNameC : Nat × Nat → Nat := Prod.fst

/-- Public key of a concrete identity. -/
def idKeyC : Nat × Nat → Nat := Prod.snd

/-- Identities asserted by a concrete claim: claim 0 asserts none, every
other claim asserts names 1 and 2, each owning public key 100. -/
def groupIdsC : Nat → List (Nat × Nat) := fun c =>
  if c = 0 then [] else [(1, 100), (2, 100)]

/-- Signature validation of a concrete claim: claims with odd content carry
a signature matching public key 100; nothing else validates. -/
def verifyPKC : Nat → Nat → Bool := fun c k =>
  decide (k = 100) && decide (c % 2 = 1)

/-- Concrete key store: threshold 1, names 1 and 2 each vouched by sender 1
as owning key 100. -/
def ksW : KeyStore Nat Nat := ⟨1, [(1, 1, 100), (2, 1, 100)]⟩

/-- Concrete claim map: sender 1 has submitted claim 1. -/
def cmW : ClaimMap Nat Nat := [(1, [1])]

/-- The identity list that claim 1 flattens to. -/
def idsW : List (Nat × Nat) := [(1, 100), (2, 100)]

/-- Concrete sentinel at capacity: capacity 2, entries for requests 1 and 2,
thresholds high enough that nothing resolves. -/
def sEvW : KeySentinel Nat Nat Nat Nat :=
  ⟨2, [(1, (KeyStore.new 1, [])), (2, (KeyStore.new 1, []))], 5, 1⟩

section SetLemmas

variable {α : Type} [LinearOrder α]

theorem mem_insertSorted (a x : α) (l : List α) :
    x ∈ insertSorted a l ↔ x = a ∨ x ∈ l := by
  induction l with
  | nil => simp [insertSorted]
  | cons b t ih =>
    by_cases h1 : a < b
    · simp [insertSorted, h1]
    · by_cases h2 : a = b
      · subst h2
        rw [insertSorted, if_neg h1, if_pos rfl]
        simp only [List.mem_cons]
        tauto
      · simp only [insertSorted, if_neg h1, if_neg h2, List.mem_cons, ih]
        tauto

theorem sorted_insertSorted (a : α) (l : List α) (h : l.Sorted (· < ·)) :
    (insertSorted a l).Sorted (· < ·) := by
  induction l with
  | nil => simp [insertSorted]
  | cons b t ih =>
    rw [List.sorted_cons] at h
    by_cases h1 : a < b
    · rw [insertSorted, if_pos h1, List.sorted_cons]
      refine ⟨?_, List.sorted_cons.mpr h⟩
      intro x hx
      rcases List.mem_cons.mp hx with hx | hx
      · exact hx ▸ h1
      · exact lt_trans h1 (h.1 x hx)
    · by_cases h2 : a = b
      · rw [insertSorted, if_neg h1, if_pos h2]
        exact List.sorted_cons.mpr h
      · rw [insertSorted, if_neg h1, if_neg h2, List.sorted_cons]
        refine ⟨?_, ih h.2⟩
        intro x hx
        rcases (mem_insertSorted a x t).mp hx with hx | hx
        · exact hx ▸ lt_of_le_of_ne (not_lt.mp h1) (Ne.symm h2)
        · exact h.1 x hx

theorem insertSorted_idem (a : α) (l : List α) :
    insertSorted a (insertSorted a l) = insertSorted a l := by
  induction l with
  | nil =>
    simp [insertSorted]
  | cons b t ih =>
    by_cases h1 : a < b
    · rw [insertSorted, if_pos h1, insertSorted, if_neg (lt_irrefl a),
        if_pos rfl]
    · by_cases h2 : a = b
      · rw [insertSorted, if_neg h1, if_pos h2, insertSorted, if_neg h1,
          if_pos h2]
      · rw [insertSorted, if_neg h1, if_neg h2, insertSorted, if_neg h1,
          if_neg h2, ih]

theorem mem_foldl_insertSorted (l acc : List α) (x : α) :
    x ∈ l.foldl (fun s a => insertSorted a s) acc ↔ x ∈ acc ∨ x ∈ l := by
  induction l generalizing acc with
  | nil => simp
  | cons a t ih =>
    rw [List.foldl_cons, ih, mem_insertSorted]
    simp only [List.mem_cons]
    tauto

theorem mem_listToSet (l : List α) (x : α) :
    x ∈ listToSet l ↔ x ∈ l := by
  rw [listToSet, mem_foldl_insertSorted]
  simp

theorem sorted_foldl_insertSorted (l acc : List α)
    (h : acc.Sorted (· < ·)) :
    (l.foldl (fun s a => insertSorted a s) acc).Sorted (· < ·) := by
  induction l generalizing acc with
  | nil => exact h
  | cons a t ih => exact ih _ (sorted_insertSorted a acc h)

theorem sorted_listToSet (l : List α) : (listToSet l).Sorted (· < ·) :=
  sorted_foldl_insertSorted l [] (List.sorted_nil)

theorem nodup_listToSet (l : List α) : (listToSet l).Nodup :=
  (sorted_listToSet l).nodup

end SetLemmas

section FindLemmas

variable {α : Type}

theorem find?_first (p : α → Bool) (l : List α) (c : α)
    (h : l.find? p = some c) :
    ∃ l1 l2, l = l1 ++ c :: l2 ∧ (∀ x ∈ l1, p x = false) ∧ p c = true := by
  induction l with
  | nil => simp [List.find?] at h
  | cons b t ih =>
    by_cases hb : p b = true
    · rw [List.find?_cons_of_pos _ hb] at h
      obtain rfl : b = c := Option.some.inj h
      refine ⟨[], t, rfl, ?_, hb⟩
      intro x hx
      simp at hx
    · rw [List.find?_cons_of_neg _ hb] at h
      obtain ⟨l1, l2, heq, hall, hc⟩ := ih h
      refine ⟨b :: l1, l2, by rw [heq, List.cons_append], ?_, hc⟩
      intro x hx
      rcases List.mem_cons.mp hx with hx | hx
      · subst hx
        simpa using hb
      · exact hall x hx

theorem count_flatMap [DecidableEq α] {β : Type} (f : β → List α)
    (l : List β) (x : α) :
    (l.flatMap f).count x = (l.map (fun b => (f b).count x)).sum := by
  induction l with
  | nil => simp
  | cons b t ih => simp [List.flatMap_cons, List.count_append, ih]

end FindLemmas

section StoreLemmas

variable {Name Key : Type} [DecidableEq Name] [DecidableEq Key]

theorem add_key_threshold (ks : KeyStore Name Key) (a v : Name) (k : Key) :
    (ks.add_key a v k).threshold = ks.threshold := by
  rw [KeyStore.add_key]
  split <;> rfl

theorem mem_add_key_of_mem (ks : KeyStore Name Key) (a v : Name) (k : Key)
    (t : Name × Name × Key) (h : t ∈ ks.vouches) :
    t ∈ (ks.add_key a v k).vouches := by
  rw [KeyStore.add_key]
  split
  · exact h
  · exact List.mem_append_left _ h

theorem mem_add_key_self (ks : KeyStore Name Key) (a v : Name) (k : Key) :
    (a, v, k) ∈ (ks.add_key a v k).vouches := by
  rw [KeyStore.add_key]
  split
  · assumption
  · exact List.mem_append_right _ (List.mem_singleton.mpr rfl)

theorem add_key_eq_of_mem (ks : KeyStore Name Key) (a v : Name) (k : Key)
    (h : (a, v, k) ∈ ks.vouches) : ks.add_key a v k = ks := by
  rw [KeyStore.add_key, if_pos h]

theorem threshold_le_of_mem_get_accumulated_keys (ks : KeyStore Name Key)
    (claimed : Name) (k : Key) (h : k ∈ ks.get_accumulated_keys claimed) :
    ks.threshold ≤ (ks.vouchersFor claimed k).length := by
  rw [KeyStore.get_accumulated_keys] at h
  simpa using (List.mem_filter.mp h).2

end StoreLemmas

section EngineLemmas

variable {Request Name Key IdType GroupClaim : Type}
variable [DecidableEq Request] [LinearOrder Name] [DecidableEq Key]
variable [LinearOrder GroupClaim]
variable (idName : IdType → Name) (idKey : IdType → Key)
variable (groupIds : GroupClaim → List IdType)
variable (verifyPK : GroupClaim → Key → Bool)

theorem foldl_add_key_mem_of_mem (sender : Name) (l : List IdType)
    (ks : KeyStore Name Key) (t : Name × Name × Key) (h : t ∈ ks.vouches) :
    t ∈ (l.foldl (fun ks i => ks.add_key (idName i) sender (idKey i)) ks).vouches := by
  induction l generalizing ks with
  | nil => exact h
  | cons i l ih => exact ih _ (mem_add_key_of_mem _ _ _ _ _ h)

theorem mem_updated_store (sender : Name) (claim : GroupClaim)
    (ks : KeyStore Name Key) (i : IdType) (h : i ∈ groupIds claim) :
    (idName i, sender, idKey i) ∈
      (updated_store idName idKey groupIds sender claim ks).vouches := by
  rw [updated_store]
  generalize groupIds claim = l at h
  induction l generalizing ks with
  | nil => simp at h
  | cons j l ih =>
    rcases List.mem_cons.mp h with h | h
    · subst h
      exact foldl_add_key_mem_of_mem idName idKey sender l _ _
        (mem_add_key_self _ _ _ _)
    · exact ih _ h

theorem foldl_add_key_eq_of_mem (sender : Name) (l : List IdType)
    (ks : KeyStore Name Key)
    (h : ∀ i ∈ l, (idName i, sender, idKey i) ∈ ks.vouches) :
    l.foldl (fun ks i => ks.add_key (idName i) sender (idKey i)) ks = ks := by
  induction l with
  | nil => rfl
  | cons i l ih =>
    rw [List.foldl_cons, add_key_eq_of_mem _ _ _ _ (h i (List.mem_cons_self i l))]
    exact ih (fun j hj => h j (List.mem_cons_of_mem i hj))

theorem updated_store_idem (sender : Name) (claim : GroupClaim)
    (ks : KeyStore Name Key) :
    updated_store idName idKey groupIds sender claim
      (updated_store idName idKey groupIds sender claim ks) =
    updated_store idName idKey groupIds sender claim ks := by
  conv_lhs => rw [updated_store]
  exact foldl_add_key_eq_of_mem idName idKey sender _ _
    (fun i hi => mem_updated_store idName idKey groupIds sender claim ks i hi)

theorem updated_store_threshold (sender : Name) (claim : GroupClaim)
    (ks : KeyStore Name Key) :
    (updated_store idName idKey groupIds sender claim ks).threshold =
      ks.threshold := by
  rw [updated_store]
  generalize groupIds claim = l
  induction l generalizing ks with
  | nil => rfl
  | cons i l ih => rw [List.foldl_cons, ih, add_key_threshold]

theorem mapSetInsert_idem (sender : Name) (claim : GroupClaim)
    (m : ClaimMap Name GroupClaim) :
    mapSetInsert sender claim (mapSetInsert sender claim m) =
      mapSetInsert sender claim m := by
  induction m with
  | nil =>
    rw [mapSetInsert, mapSetInsert, if_neg (lt_irrefl sender), if_pos rfl]
    rw [show insertSorted claim [claim] = [claim] from by
      rw [insertSorted, if_neg (lt_irrefl claim), if_pos rfl]]
  | cons p t ih =>
    obtain ⟨n, cs⟩ := p
    by_cases h1 : sender < n
    · rw [mapSetInsert, if_pos h1, mapSetInsert, if_neg (lt_irrefl sender),
        if_pos rfl]
      rw [show insertSorted claim [claim] = [claim] from by
        rw [insertSorted, if_neg (lt_irrefl claim), if_pos rfl]]
    · by_cases h2 : sender = n
      · subst h2
        rw [mapSetInsert, if_neg h1, if_pos rfl, mapSetInsert, if_neg h1,
          if_pos rfl, insertSorted_idem]
      · rw [mapSetInsert, if_neg h1, if_neg h2, mapSetInsert, if_neg h1,
          if_neg h2, ih]

theorem verify_claim_iff (author : Name) (ks : KeyStore Name Key)
    (claim : GroupClaim) :
    verify_claim verifyPK author ks claim = true ↔
      ∃ k ∈ ks.get_accumulated_keys author, verifyPK claim k = true := by
  rw [verify_claim, List.any_eq_true]

theorem mem_verified_claims_iff (ks : KeyStore Name Key)
    (cm : ClaimMap Name GroupClaim) (c : GroupClaim) :
    c ∈ verified_claims verifyPK ks cm ↔
      ∃ p ∈ cm, p.2.find? (fun c => verify_claim verifyPK p.1 ks c) = some c := by
  rw [verified_claims, mem_listToSet, List.mem_filterMap]

theorem cacheLookup_erase_self (r : Request)
    (c : List (Request × (KeyStore Name Key × ClaimMap Name GroupClaim))) :
    cacheLookup r (cacheErase r c) = none := by
  rw [cacheLookup, cacheErase]
  rw [List.find?_eq_none.mpr, Option.map_none']
  intro p hp
  have := (List.mem_filter.mp hp).2
  simpa using this

theorem cacheErase_of_lookup_none (r : Request)
    (c : List (Request × (KeyStore Name Key × ClaimMap Name GroupClaim)))
    (h : cacheLookup r c = none) : cacheErase r c = c := by
  rw [cacheLookup] at h
  have hf : c.find? (fun p => decide (p.1 = r)) = none :=
    Option.map_eq_none'.mp h
  rw [cacheErase, List.filter_eq_self]
  intro p hp
  have := List.find?_eq_none.mp hf p hp
  simpa using this

theorem cacheLookup_touchInsert (cap : Nat) (hcap : 0 < cap) (r : Request)
    (e : KeyStore Name Key × ClaimMap Name GroupClaim)
    (c : List (Request × (KeyStore Name Key × ClaimMap Name GroupClaim))) :
    cacheLookup r (cacheTouchInsert cap r e c) = some e := by
  obtain ⟨k, rfl⟩ := Nat.exists_eq_succ_of_ne_zero (Nat.pos_iff_ne_zero.mp hcap)
  rw [cacheTouchInsert, List.take_succ_cons, cacheLookup,
    List.find?_cons_of_pos _ (by simp)]
  rfl

theorem cacheErase_touchInsert (k : Nat) (r : Request)
    (e : KeyStore Name Key × ClaimMap Name GroupClaim)
    (c : List (Request × (KeyStore Name Key × ClaimMap Name GroupClaim))) :
    cacheErase r (cacheTouchInsert (k + 1) r e c) = (cacheErase r c).take k := by
  rw [cacheTouchInsert, List.take_succ_cons, cacheErase, List.filter_cons,
    if_neg (by simp)]
  rw [List.filter_eq_self.mpr]
  intro p hp
  have hp2 := List.mem_of_mem_take hp
  have := (List.mem_filter.mp hp2).2
  simpa using this

theorem try_selecting_group_eq_some (ks : KeyStore Name Key)
    (cm : ClaimMap Name GroupClaim) (t : Nat)
    (h : t ≤ (verified_claims verifyPK ks cm).length) :
    try_selecting_group groupIds verifyPK ks cm t =
      some ((verified_claims verifyPK ks cm).flatMap groupIds) := by
  simp only [try_selecting_group]
  rw [if_neg (not_lt.mpr h)]

theorem try_selecting_group_eq_none (ks : KeyStore Name Key)
    (cm : ClaimMap Name GroupClaim) (t : Nat)
    (h : (verified_claims verifyPK ks cm).length < t) :
    try_selecting_group groupIds verifyPK ks cm t = none := by
  simp only [try_selecting_group]
  rw [if_pos h]

theorem add_identities_eq_of_try_some
    (s : KeySentinel Request Name Key GroupClaim) (r : Request) (n : Name)
    (c : GroupClaim) (ids : List IdType)
    (h : try_selecting_group groupIds verifyPK
        (entry_after idName idKey groupIds s r n c).1
        (entry_after idName idKey groupIds s r n c).2
        s.claim_threshold = some ids) :
    add_identities idName idKey groupIds verifyPK s r n c =
      ({ s with cache := (cacheErase r (cacheTouchInsert s.capacity r
          (entry_after idName idKey groupIds s r n c) s.cache)) },
       some (r, ids)) := by
  simp only [add_identities]
  rw [h]

theorem add_identities_eq_of_try_none
    (s : KeySentinel Request Name Key GroupClaim) (r : Request) (n : Name)
    (c : GroupClaim)
    (h : try_selecting_group groupIds verifyPK
        (entry_after idName idKey groupIds s r n c).1
        (entry_after idName idKey groupIds s r n c).2
        s.claim_threshold = none) :
    add_identities idName idKey groupIds verifyPK s r n c =
      ({ s with cache := (cacheTouchInsert s.capacity r
          (entry_after idName idKey groupIds s r n c) s.cache) },
       none) := by
  simp only [add_identities]
  rw [h]

/-- C1: whenever an add_identities call causes the set of verified claims for
a request to reach at least claim_threshold, that call returns the RequestId
paired with the merged identity list, the PendingEntry of the request is
removed from the cache, and a subsequent claim for the same RequestId starts
from a brand-new empty entry (empty key store and empty claim map). -/
theorem claim_C1_quorum_trigger
    (s : KeySentinel Request Name Key GroupClaim) (r : Request) (n : Name)
    (c : GroupClaim)
    (h : s.claim_threshold ≤
      (verified_claims verifyPK
        (entry_after idName idKey groupIds s r n c).1
        (entry_after idName idKey groupIds s r n c).2).length) :
    (add_identities idName idKey groupIds verifyPK s r n c).2 =
      some (r, (verified_claims verifyPK
        (entry_after idName idKey groupIds s r n c).1
        (entry_after idName idKey groupIds s r n c).2).flatMap groupIds) ∧
    cacheLookup r
      (add_identities idName idKey groupIds verifyPK s r n c).1.cache = none ∧
    (∀ n2 c2, entry_after idName idKey groupIds
        (add_identities idName idKey groupIds verifyPK s r n c).1 r n2 c2 =
      (updated_store idName idKey groupIds n2 c2 (KeyStore.new s.keys_threshold),
       mapSetInsert n2 c2 [])) := by
  have ha := add_identities_eq_of_try_some idName idKey groupIds verifyPK s r n c _
    (try_selecting_group_eq_some groupIds verifyPK _ _ _ h)
  rw [ha]
  refine ⟨rfl, cacheLookup_erase_self r _, ?_⟩
  intro n2 c2
  simp only [entry_after, cacheLookup_erase_self, Option.getD_none]

/-- C2: add_identities returns none exactly when the number of distinct
verified claims accumulated for the request is strictly below
claim_threshold (reaching exactly claim_threshold is sufficient), and on a
none return the entry of the request stays cached with its accumulated
state. -/
theorem claim_C2_quorum_floor
    (s : KeySentinel Request Name Key GroupClaim) (r : Request) (n : Name)
    (c : GroupClaim) :
    ((add_identities idName idKey groupIds verifyPK s r n c).2 = none ↔
      (verified_claims verifyPK
        (entry_after idName idKey groupIds s r n c).1
        (entry_after idName idKey groupIds s r n c).2).length <
        s.claim_threshold) ∧
    ((verified_claims verifyPK
        (entry_after idName idKey groupIds s r n c).1
        (entry_after idName idKey groupIds s r n c).2).length <
        s.claim_threshold →
      0 < s.capacity →
      cacheLookup r
          (add_identities idName idKey groupIds verifyPK s r n c).1.cache =
        some (entry_after idName idKey groupIds s r n c)) := by
  by_cases hlt : (verified_claims verifyPK
      (entry_after idName idKey groupIds s r n c).1
      (entry_after idName idKey groupIds s r n c).2).length < s.claim_threshold
  · have ha := add_identities_eq_of_try_none idName idKey groupIds verifyPK s r n c
      (try_selecting_group_eq_none groupIds verifyPK _ _ _ hlt)
    rw [ha]
    exact ⟨by simp [hlt], fun _ hcap =>
      cacheLookup_touchInsert s.capacity hcap r _ s.cache⟩
  · have ha := add_identities_eq_of_try_some idName idKey groupIds verifyPK s r n c _
      (try_selecting_group_eq_some groupIds verifyPK _ _ _ (not_lt.mp hlt))
    rw [ha]
    exact ⟨by simp [hlt], fun hl => absurd hl hlt⟩

/-- C10: with claim_threshold zero, every add_identities call resolves
immediately: it returns the request paired with the flattened identities of
the verified claims (possibly the empty list) and removes the entry of the
request from the cache. -/
theorem claim_C10_zero_claim_threshold
    (s : KeySentinel Request Name Key GroupClaim) (r : Request) (n : Name)
    (c : GroupClaim) (h : s.claim_threshold = 0) :
    (add_identities idName idKey groupIds verifyPK s r n c).2 =
      some (r, (verified_claims verifyPK
        (entry_after idName idKey groupIds s r n c).1
        (entry_after idName idKey groupIds s r n c).2).flatMap groupIds) ∧
    cacheLookup r
      (add_identities idName idKey groupIds verifyPK s r n c).1.cache = none := by
  have ha := add_identities_eq_of_try_some idName idKey groupIds verifyPK s r n c _
    (try_selecting_group_eq_some groupIds verifyPK _ _ _ (by omega))
  rw [ha]
  exact ⟨rfl, cacheLookup_erase_self r _⟩

theorem cacheTouchInsert_idem (k : Nat) (r : Request)
    (e : KeyStore Name Key × ClaimMap Name GroupClaim)
    (c : List (Request × (KeyStore Name Key × ClaimMap Name GroupClaim))) :
    cacheTouchInsert (k + 1) r e (cacheTouchInsert (k + 1) r e c) =
      cacheTouchInsert (k + 1) r e c := by
  conv_lhs => rw [cacheTouchInsert]
  rw [cacheErase_touchInsert, List.take_succ_cons, List.take_take,
    Nat.min_self, cacheTouchInsert, List.take_succ_cons]

theorem entry_after_cache_some (s : KeySentinel Request Name Key GroupClaim)
    (r : Request) (n : Name) (c : GroupClaim)
    (e : KeyStore Name Key × ClaimMap Name GroupClaim)
    (hl : cacheLookup r s.cache = some e) :
    entry_after idName idKey groupIds s r n c =
      (updated_store idName idKey groupIds n c e.1, mapSetInsert n c e.2) := by
  rw [entry_after, hl, Option.getD_some]

theorem entry_after_idem (s : KeySentinel Request Name Key GroupClaim)
    (r : Request) (n : Name) (c : GroupClaim) :
    (updated_store idName idKey groupIds n c
        (entry_after idName idKey groupIds s r n c).1,
     mapSetInsert n c (entry_after idName idKey groupIds s r n c).2) =
      entry_after idName idKey groupIds s r n c := by
  rw [entry_after]
  dsimp only
  rw [updated_store_idem, mapSetInsert_idem]

/-- C3: a claim enters the verified set only when submitted by a sender for
whose name the Key-Corroboration Store exposes, via get_accumulated_keys, a
public key that has reached the keys_threshold distinct-voucher bound and
that validates the claim signature; a sender none of whose claims validates
against any exposed key contributes nothing to the verified set. -/
theorem claim_C3_key_gating (ks : KeyStore Name Key)
    (cm : ClaimMap Name GroupClaim) :
    (∀ c ∈ verified_claims verifyPK ks cm,
      ∃ p ∈ cm, c ∈ p.2 ∧
        ∃ k ∈ ks.get_accumulated_keys p.1,
          verifyPK c k = true ∧
          ks.threshold ≤ (ks.vouchersFor p.1 k).length) ∧
    (∀ (l1 l2 : ClaimMap Name GroupClaim) (sender : Name)
        (cs : List GroupClaim),
      cm = l1 ++ (sender, cs) :: l2 →
      (∀ c ∈ cs, verify_claim verifyPK sender ks c = false) →
      verified_claims verifyPK ks cm = verified_claims verifyPK ks (l1 ++ l2)) := by
  constructor
  · intro c hc
    obtain ⟨p, hp, hfind⟩ := (mem_verified_claims_iff verifyPK ks cm c).mp hc
    refine ⟨p, hp, List.mem_of_find?_eq_some hfind, ?_⟩
    have hv : verify_claim verifyPK p.1 ks c = true := List.find?_some hfind
    obtain ⟨k, hk, hvk⟩ := (verify_claim_iff verifyPK p.1 ks c).mp hv
    exact ⟨k, hk, hvk, threshold_le_of_mem_get_accumulated_keys ks p.1 k hk⟩
  · intro l1 l2 sender cs hcm hfail
    subst hcm
    rw [verified_claims, verified_claims, List.filterMap_append,
      List.filterMap_append, List.filterMap_cons]
    rw [List.find?_eq_none.mpr (by
      intro x hx
      simp [hfail x hx])]

/-- C4: during selection each sender contributes at most one claim, the
first claim in the iteration order of that sender that verifies, and the
verified claims of all senders form a duplicate-free set, so content-equal
claims from different senders count once toward the quorum. -/
theorem claim_C4_one_claim_per_sender (ks : KeyStore Name Key)
    (cm : ClaimMap Name GroupClaim) :
    (verified_claims verifyPK ks cm).Nodup ∧
    (∀ c, c ∈ verified_claims verifyPK ks cm ↔
      ∃ p ∈ cm,
        p.2.find? (fun x => verify_claim verifyPK p.1 ks x) = some c) ∧
    (∀ (sender : Name) (cs : List GroupClaim) (c : GroupClaim),
      cs.find? (fun x => verify_claim verifyPK sender ks x) = some c →
      ∃ l1 l2, cs = l1 ++ c :: l2 ∧
        (∀ x ∈ l1, verify_claim verifyPK sender ks x = false) ∧
        verify_claim verifyPK sender ks c = true) := by
  refine ⟨nodup_listToSet _, fun c => mem_verified_claims_iff verifyPK ks cm c,
    fun sender cs c h => find?_first _ cs c h⟩

/-- C6: on every add_identities call and for every identity referenced by
the submitted claim, the vouch (identity name, sender, identity public key)
is registered into the key store of the entry used for selection,
independently of whether the submitted claim verifies. -/
theorem claim_C6_unconditional_registration
    (s : KeySentinel Request Name Key GroupClaim) (r : Request)
    (sender : Name) (claim : GroupClaim) (i : IdType)
    (h : i ∈ groupIds claim) :
    (idName i, sender, idKey i) ∈
      (entry_after idName idKey groupIds s r sender claim).1.vouches := by
  rw [entry_after]
  exact mem_updated_store idName idKey groupIds sender claim _ i h

/-- C7: when selection succeeds, the returned identity list is exactly the
concatenation of the identities of every verified claim in verified-set
iteration order, without deduplication: every identity occurs as many times
as the sum of its occurrences over the verified claims. -/
theorem claim_C7_flatten_no_dedup [DecidableEq IdType]
    (ks : KeyStore Name Key) (cm : ClaimMap Name GroupClaim) (t : Nat)
    (ids : List IdType)
    (h : try_selecting_group groupIds verifyPK ks cm t = some ids) :
    ids = (verified_claims verifyPK ks cm).flatMap groupIds ∧
    ∀ x, ids.count x =
      ((verified_claims verifyPK ks cm).map
        (fun c => (groupIds c).count x)).sum := by
  simp only [try_selecting_group] at h
  by_cases hlt : (verified_claims verifyPK ks cm).length < t
  · rw [if_pos hlt] at h
    exact absurd h (by simp)
  · rw [if_neg hlt] at h
    obtain rfl : (verified_claims verifyPK ks cm).flatMap groupIds = ids :=
      Option.some.inj h
    exact ⟨rfl, fun x => count_flatMap groupIds _ x⟩

/-- C5: resubmitting an identical (request, sender, claim) triple after a
call that did not resolve leaves the accumulator exactly as it was: the
duplicate insertion of the claim and the repeated registration of its
vouches change nothing, and the quorum outcome is again unresolved. -/
theorem claim_C5_idempotence
    (s : KeySentinel Request Name Key GroupClaim) (r : Request) (n : Name)
    (c : GroupClaim) (hcap : 0 < s.capacity)
    (h : (add_identities idName idKey groupIds verifyPK s r n c).2 = none) :
    add_identities idName idKey groupIds verifyPK
      (add_identities idName idKey groupIds verifyPK s r n c).1 r n c =
    ((add_identities idName idKey groupIds verifyPK s r n c).1, none) := by
  rcases htry : try_selecting_group groupIds verifyPK
      (entry_after idName idKey groupIds s r n c).1
      (entry_after idName idKey groupIds s r n c).2 s.claim_threshold
    with _ | ids
  · have ha := add_identities_eq_of_try_none idName idKey groupIds verifyPK
      s r n c htry
    rw [ha]
    have hlook : cacheLookup r (cacheTouchInsert s.capacity r
        (entry_after idName idKey groupIds s r n c) s.cache) =
        some (entry_after idName idKey groupIds s r n c) :=
      cacheLookup_touchInsert s.capacity hcap r _ s.cache
    have hentry : entry_after idName idKey groupIds
        ({ s with cache := (cacheTouchInsert s.capacity r
          (entry_after idName idKey groupIds s r n c) s.cache) }) r n c =
        entry_after idName idKey groupIds s r n c := by
      rw [entry_after_cache_some idName idKey groupIds _ r n c _ hlook]
      exact entry_after_idem idName idKey groupIds s r n c
    have htry2 : try_selecting_group groupIds verifyPK
        (entry_after idName idKey groupIds
          ({ s with cache := (cacheTouchInsert s.capacity r
            (entry_after idName idKey groupIds s r n c) s.cache) }) r n c).1
        (entry_after idName idKey groupIds
          ({ s with cache := (cacheTouchInsert s.capacity r
            (entry_after idName idKey groupIds s r n c) s.cache) }) r n c).2
        ({ s with cache := (cacheTouchInsert s.capacity r
          (entry_after idName idKey groupIds s r n c) s.cache) } :
            KeySentinel Request Name Key GroupClaim).claim_threshold = none := by
      rw [hentry]
      exact htry
    have hb := add_identities_eq_of_try_none idName idKey groupIds verifyPK
      _ r n c htry2
    rw [hb, hentry]
    obtain ⟨k, hk⟩ := Nat.exists_eq_succ_of_ne_zero (Nat.pos_iff_ne_zero.mp hcap)
    have hcache : cacheTouchInsert s.capacity r
        (entry_after idName idKey groupIds s r n c)
        (cacheTouchInsert s.capacity r
          (entry_after idName idKey groupIds s r n c) s.cache) =
        cacheTouchInsert s.capacity r
          (entry_after idName idKey groupIds s r n c) s.cache := by
      rw [hk]
      exact cacheTouchInsert_idem k r _ s.cache
    exact congrArg (fun x =>
      (({ s with cache := x } : KeySentinel Request Name Key GroupClaim),
        (none : Option (Request × List IdType)))) hcache
  · have ha := add_identities_eq_of_try_some idName idKey groupIds verifyPK
      s r n c ids htry
    rw [ha] at h
    simp at h

/-- C9: after any add_identities call the cache holds at most capacity
entries; when a new request is inserted into a full cache and the call does
not resolve, the least-recently-touched entry (the last in recency order)
is evicted while the entry being mutated stays present at the front. -/
theorem claim_C9_eviction_bound
    (s : KeySentinel Request Name Key GroupClaim) (r : Request) (n : Name)
    (c : GroupClaim) :
    ((add_identities idName idKey groupIds verifyPK s r n c).1.cache.length ≤
      s.capacity) ∧
    (0 < s.capacity →
      (add_identities idName idKey groupIds verifyPK s r n c).2 = none →
      r ∈ (add_identities idName idKey groupIds verifyPK
        s r n c).1.cache.map Prod.fst) ∧
    (cacheLookup r s.cache = none → s.cache.length = s.capacity →
      0 < s.capacity →
      (add_identities idName idKey groupIds verifyPK s r n c).2 = none →
      (add_identities idName idKey groupIds verifyPK
          s r n c).1.cache.map Prod.fst =
        r :: (s.cache.map Prod.fst).dropLast) := by
  rcases htry : try_selecting_group groupIds verifyPK
      (entry_after idName idKey groupIds s r n c).1
      (entry_after idName idKey groupIds s r n c).2 s.claim_threshold
    with _ | ids
  · rw [add_identities_eq_of_try_none idName idKey groupIds verifyPK s r n c htry]
    refine ⟨?_, ?_, ?_⟩
    · exact le_trans (List.length_take_le _ _) (le_refl _)
    · intro hcap _
      obtain ⟨k, hk⟩ := Nat.exists_eq_succ_of_ne_zero (Nat.pos_iff_ne_zero.mp hcap)
      rw [cacheTouchInsert, hk, List.take_succ_cons, List.map_cons]
      exact List.mem_cons_self _ _
    · intro hnone hlen hcap _
      obtain ⟨k, hk⟩ := Nat.exists_eq_succ_of_ne_zero (Nat.pos_iff_ne_zero.mp hcap)
      rw [cacheTouchInsert, cacheErase_of_lookup_none r s.cache hnone, hk,
        List.take_succ_cons, List.map_cons, List.map_take,
        List.dropLast_eq_take, List.length_map, hlen, hk,
        Nat.succ_sub_one]
  · rw [add_identities_eq_of_try_some idName idKey groupIds verifyPK s r n c ids htry]
    refine ⟨?_, ?_, ?_⟩
    · exact le_trans (List.length_filter_le _ _) (List.length_take_le _ _)
    · intro _ habs
      simp at habs
    · intro _ _ _ habs
      simp at habs

/-- C8 (amended): the configuration is immutable for the accumulator
lifetime, but only the two thresholds are constructor parameters; the
maximum cache capacity is the fixed constant MAX_REQUEST_COUNT, and no
operation changes any of the three. -/
theorem claim_C8_amended_config
    (ct kt : Nat) (s : KeySentinel Request Name Key GroupClaim) (r : Request)
    (n : Name) (c : GroupClaim) :
    (KeySentinel.new ct kt :
        KeySentinel Request Name Key GroupClaim).claim_threshold = ct ∧
    (KeySentinel.new ct kt :
        KeySentinel Request Name Key GroupClaim).keys_threshold = kt ∧
    (KeySentinel.new ct kt :
        KeySentinel Request Name Key GroupClaim).capacity = MAX_REQUEST_COUNT ∧
    (add_identities idName idKey groupIds verifyPK
        s r n c).1.claim_threshold = s.claim_threshold ∧
    (add_identities idName idKey groupIds verifyPK
        s r n c).1.keys_threshold = s.keys_threshold ∧
    (add_identities idName idKey groupIds verifyPK
        s r n c).1.capacity = s.capacity := by
  refine ⟨rfl, rfl, rfl, ?_, ?_, ?_⟩ <;>
  · rcases htry : try_selecting_group groupIds verifyPK
        (entry_after idName idKey groupIds s r n c).1
        (entry_after idName idKey groupIds s r n c).2 s.claim_threshold
      with _ | ids
    · rw [add_identities_eq_of_try_none idName idKey groupIds verifyPK s r n c htry]
    · rw [add_identities_eq_of_try_some idName idKey groupIds verifyPK s r n c ids htry]

end EngineLemmas

/-- Witness for C1: with both thresholds 1, the first claim crosses quorum,
the call returns the merged identities and the entry is gone. -/
theorem claim_C1_witness :
    (add_identities idNameC idKeyC groupIdsC verifyPKC
        (KeySentinel.new 1 1 : KeySentinel Nat Nat Nat Nat) 0 1 1).2 =
      some (0, (verified_claims verifyPKC
        (entry_after idNameC idKeyC groupIdsC
          (KeySentinel.new 1 1 : KeySentinel Nat Nat Nat Nat) 0 1 1).1
        (entry_after idNameC idKeyC groupIdsC
          (KeySentinel.new 1 1 : KeySentinel Nat Nat Nat Nat) 0 1 1).2).flatMap
        groupIdsC) ∧
    cacheLookup 0 (add_identities idNameC idKeyC groupIdsC verifyPKC
        (KeySentinel.new 1 1 : KeySentinel Nat Nat Nat Nat) 0 1 1).1.cache =
      none ∧
    entry_after idNameC idKeyC groupIdsC
        (add_identities idNameC idKeyC groupIdsC verifyPKC
          (KeySentinel.new 1 1 : KeySentinel Nat Nat Nat Nat) 0 1 1).1 0 2 3 =
      (updated_store idNameC idKeyC groupIdsC 2 3 (KeyStore.new 1),
       mapSetInsert 2 3 []) :=
  ⟨(claim_C1_quorum_trigger idNameC idKeyC groupIdsC verifyPKC
      (KeySentinel.new 1 1) 0 1 1 (by decide)).1,
   (claim_C1_quorum_trigger idNameC idKeyC groupIdsC verifyPKC
      (KeySentinel.new 1 1) 0 1 1 (by decide)).2.1,
   (claim_C1_quorum_trigger idNameC idKeyC groupIdsC verifyPKC
      (KeySentinel.new 1 1) 0 1 1 (by decide)).2.2 2 3⟩

/-- Witness for C2: one verified claim against claim_threshold 2 resolves
nothing and the entry stays cached with its accumulated state. -/
theorem claim_C2_witness :
    ((add_identities idNameC idKeyC groupIdsC verifyPKC
        (KeySentinel.new 2 1 : KeySentinel Nat Nat Nat Nat) 0 1 1).2 = none ↔
      (verified_claims verifyPKC
        (entry_after idNameC idKeyC groupIdsC
          (KeySentinel.new 2 1 : KeySentinel Nat Nat Nat Nat) 0 1 1).1
        (entry_after idNameC idKeyC groupIdsC
          (KeySentinel.new 2 1 : KeySentinel Nat Nat Nat Nat) 0 1 1).2).length <
        2) ∧
    cacheLookup 0 (add_identities idNameC idKeyC groupIdsC verifyPKC
        (KeySentinel.new 2 1 : KeySentinel Nat Nat Nat Nat) 0 1 1).1.cache =
      some (entry_after idNameC idKeyC groupIdsC
        (KeySentinel.new 2 1 : KeySentinel Nat Nat Nat Nat) 0 1 1) :=
  ⟨(claim_C2_quorum_floor idNameC idKeyC groupIdsC verifyPKC
      (KeySentinel.new 2 1) 0 1 1).1,
   (claim_C2_quorum_floor idNameC idKeyC groupIdsC verifyPKC
      (KeySentinel.new 2 1) 0 1 1).2 (by decide) (by decide)⟩

/-- Witness for C3: claim 1 of sender 1 is in the verified set through the
corroborated key 100. -/
theorem claim_C3_witness :
    ∃ p ∈ cmW, (1 : Nat) ∈ p.2 ∧
      ∃ k ∈ ksW.get_accumulated_keys p.1,
        verifyPKC 1 k = true ∧
        ksW.threshold ≤ (ksW.vouchersFor p.1 k).length :=
  (claim_C3_key_gating verifyPKC ksW cmW).1 1 (by decide)

/-- Witness for C4: in the claim set of sender 1 holding claims 2 and 3,
selection keeps claim 3, the first that verifies. -/
theorem claim_C4_witness :
    ∃ l1 l2, ([2, 3] : List Nat) = l1 ++ 3 :: l2 ∧
      (∀ x ∈ l1, verify_claim verifyPKC 1 ksW x = false) ∧
      verify_claim verifyPKC 1 ksW 3 = true :=
  (claim_C4_one_claim_per_sender verifyPKC ksW cmW).2.2 1 [2, 3] 3 (by decide)

/-- Witness for C5: resubmitting the identical triple after an unresolved
call changes nothing. -/
theorem claim_C5_witness :
    add_identities idNameC idKeyC groupIdsC verifyPKC
      (add_identities idNameC idKeyC groupIdsC verifyPKC
        (KeySentinel.new 2 1 : KeySentinel Nat Nat Nat Nat) 0 1 1).1 0 1 1 =
    ((add_identities idNameC idKeyC groupIdsC verifyPKC
        (KeySentinel.new 2 1 : KeySentinel Nat Nat Nat Nat) 0 1 1).1, none) :=
  claim_C5_idempotence idNameC idKeyC groupIdsC verifyPKC
    (KeySentinel.new 2 1) 0 1 1 (by decide) (by decide)

/-- Witness for C6: the vouch of sender 1 for identity (1, 100) referenced
by claim 1 is registered. -/
theorem claim_C6_witness :
    ((1 : Nat), (1 : Nat), (100 : Nat)) ∈
      (entry_after idNameC idKeyC groupIdsC
        (KeySentinel.new 2 1 : KeySentinel Nat Nat Nat Nat) 0 1 1).1.vouches :=
  claim_C6_unconditional_registration idNameC idKeyC groupIdsC
    (KeySentinel.new 2 1) 0 1 1 (1, 100) (by decide)

/-- Witness for C7: the resolved identity list is the flattening of the
verified claims and identity (1, 100) occurs the summed number of times. -/
theorem claim_C7_witness :
    idsW = (verified_claims verifyPKC ksW cmW).flatMap groupIdsC ∧
    idsW.count (1, 100) =
      ((verified_claims verifyPKC ksW cmW).map
        (fun c => (groupIdsC c).count (1, 100))).sum :=
  ⟨(claim_C7_flatten_no_dedup groupIdsC verifyPKC ksW cmW 1 idsW (by decide)).1,
   (claim_C7_flatten_no_dedup groupIdsC verifyPKC ksW cmW 1 idsW
      (by decide)).2 (1, 100)⟩

/-- Counterexample for C8 as stated: KeySentinel.new takes only the two
thresholds, and the capacity of a freshly constructed accumulator is the
fixed constant 1000, matching neither constructor argument, so the maximum
cache capacity is not a constructor parameter. -/
theorem claim_C8_counterexample :
    (KeySentinel.new 5 7 : KeySentinel Nat Nat Nat Nat).capacity = 1000 ∧
    ¬((KeySentinel.new 5 7 : KeySentinel Nat Nat Nat Nat).capacity = 5 ∨
      (KeySentinel.new 5 7 : KeySentinel Nat Nat Nat Nat).capacity = 7) :=
  ⟨rfl, by decide⟩

/-- Witness for C9: inserting fresh request 0 into the full two-entry cache
keeps the bound, keeps request 0, and evicts the least-recently-touched
request 2. -/
theorem claim_C9_witness :
    ((add_identities idNameC idKeyC groupIdsC verifyPKC
        sEvW 0 1 0).1.cache.length ≤ sEvW.capacity) ∧
    (0 : Nat) ∈ (add_identities idNameC idKeyC groupIdsC verifyPKC
        sEvW 0 1 0).1.cache.map Prod.fst ∧
    (add_identities idNameC idKeyC groupIdsC verifyPKC
        sEvW 0 1 0).1.cache.map Prod.fst =
      0 :: (sEvW.cache.map Prod.fst).dropLast :=
  ⟨(claim_C9_eviction_bound idNameC idKeyC groupIdsC verifyPKC
      sEvW 0 1 0).1,
   (claim_C9_eviction_bound idNameC idKeyC groupIdsC verifyPKC
      sEvW 0 1 0).2.1 (by decide) (by decide),
   (claim_C9_eviction_bound idNameC idKeyC groupIdsC verifyPKC
      sEvW 0 1 0).2.2 (by decide) (by decide) (by decide) (by decide)⟩

/-- Witness for C10: with claim_threshold 0 the very first submission, a
claim that does not even verify, resolves with the empty identity list. -/
theorem claim_C10_witness :
    (add_identities idNameC idKeyC groupIdsC verifyPKC
        (KeySentinel.new 0 1 : KeySentinel Nat Nat Nat Nat) 0 1 0).2 =
      some (0, (verified_claims verifyPKC
        (entry_after idNameC idKeyC groupIdsC
          (KeySentinel.new 0 1 : KeySentinel Nat Nat Nat Nat) 0 1 0).1
        (entry_after idNameC idKeyC groupIdsC
          (KeySentinel.new 0 1 : KeySentinel Nat Nat Nat Nat) 0 1 0).2).flatMap
        groupIdsC) ∧
    cacheLookup 0 (add_identities idNameC idKeyC groupIdsC verifyPKC
        (KeySentinel.new 0 1 : KeySentinel Nat Nat Nat Nat) 0 1 0).1.cache =
      none :=
  claim_C10_zero_claim_threshold idNameC idKeyC groupIdsC verifyPKC
    (KeySentinel.new 0 1) 0 1 0 (by decide)

end Sentinel
